import Mathlib

/-!
Verification of the flow-metrics analysis pipeline (`analysis.py`) of the
jira-flow-metrics repository against its natural-language specification.

Modelling conventions (shallow embedding):

* Timestamps are rationals counting days since an epoch chosen to fall on a
  Monday (2024-01-01); `pandas` UTC-naive timestamps are linear time, so the
  choice of epoch is only a shift.  With a Monday epoch, the Saturday/Sunday
  weekmask of `numpy.busday_count` becomes arithmetic modulo 7 on the floored
  day index (residues 5 and 6).
* A pandas null (NaN/NaT) in a column is an `Option.none`; `issue_points`
  values are rationals, `Throughput`/`Velocity` columns are integers exactly
  as in the source (`astype(int)`).  A null cell produced by `read_csv` is
  the float NaN, never the Python `None` object, so a source test of the
  form `cell is None` is False on every cell of the frame.
* DataFrames become lists of typed records; column assignments become record
  fields; `pandas.date_range(start, end, inclusive='left', freq='D')` becomes
  the list of integer days `[since, until)`.
* `sort_values` becomes `List.insertionSort` with the corresponding key (the
  source's sort algorithm is pandas' default quicksort, whose order on equal
  keys is unspecified; every property proved here is invariant under the
  order chosen among equal keys).
* Functions that log and `return` early on empty input return `Option.none`;
  functions that can raise `AnalysisException` return an `Except`.
-/

namespace JiraFlow

/-- A row of the changelog table consumed by `process_issue_data`,
`process_flow_data` and `process_flow_category_data` (see the required-field
list in `read_data`).  Nullable columns are `Option`s. -/
structure ChangeEvent where
  issue_id : Nat
  issue_key : String
  issue_type_name : String
  issue_created_date : ℚ
  issue_points : ℚ
  changelog_id : Option Nat
  status_change_date : ℚ
  status_from_name : Option String
  status_to_name : Option String
  status_from_category_name : Option String
  status_to_category_name : Option String
deriving DecidableEq, Repr

/-- The per-issue accumulator dictionary `issue_statuses[issue_id]` built by
the fold over an issue's updates (analysis.py lines 190-221).  A missing
dictionary entry is `none`. -/
structure IssueStatus where
  first_created : Option ℚ := none
  first_in_progress : Option ℚ := none
  last_complete : Option ℚ := none
  prev_update : Option ChangeEvent := none
  last_update : Option ChangeEvent := none
deriving DecidableEq, Repr

/-- The `if not ...get(...): set; then min` idiom of the source collapses to a
minimum that treats a missing entry as the new value. -/
def optMin (cur : Option ℚ) (t : ℚ) : ℚ :=
  match cur with
  | none => t
  | some c => min c t

/-- Maximum against an optional current value, as `optMin`. -/
def optMax (cur : Option ℚ) (t : ℚ) : ℚ :=
  match cur with
  | none => t
  | some c => max c t

/-- One step of the per-issue fold (analysis.py lines 191-221).  The guard
at line 192 (`if update.changelog_id is None: continue`) tests the cell
against the Python `None` object; `process_issue_data` only ever receives
`read_csv` output, where a null `changelog_id` cell is NaN, so the guard
never fires and every update is folded: the three milestone extrema are
updated, `prev_update` becomes the previous `last_update` and `last_update`
becomes this update. -/
def foldUpdate (s : IssueStatus) (u : ChangeEvent) : IssueStatus :=
  { first_created := some (optMin s.first_created u.issue_created_date)
    first_in_progress :=
      if u.status_to_category_name = some "In Progress" then
        some (optMin s.first_in_progress u.status_change_date)
      else s.first_in_progress
    last_complete :=
      if u.status_to_category_name = some "Complete" ∨
          u.status_to_category_name = some "Done" then
        some (optMax s.last_complete u.status_change_date)
      else s.last_complete
    prev_update := s.last_update
    last_update := some u }

/-- The rows of one issue, in table order (`issues[item.issue_id].append`). -/
def rowsFor (rows : List ChangeEvent) (i : Nat) : List ChangeEvent :=
  rows.filter (fun r => r.issue_id == i)

/-- `issue_statuses[i]` after folding all updates of issue `i`. -/
def statusesFor (rows : List ChangeEvent) (i : Nat) : IssueStatus :=
  (rowsFor rows i).foldl foldUpdate {}

/-- Distinct issue ids in order of first appearance (dict insertion order of
the `issues` defaultdict). -/
def issueIdsInOrder (rows : List ChangeEvent) : List Nat :=
  rows.foldl (fun acc r => if r.issue_id ∈ acc then acc else acc ++ [r.issue_id]) []

/-- The keys of `issue_statuses`: every issue with at least one row.  The
defaultdict entry is created by the line-201 access for every folded update,
and every update is folded (the line-192 `is None` guard never fires on
NaN), so the keys are exactly the issue ids of the table, in first-seen
order. -/
def processedIds (rows : List ChangeEvent) : List Nat :=
  issueIdsInOrder rows

/-- Last-writer-wins lookup maps built in the first row loop
(`issue_types[item.issue_id] = item.issue_type_name` etc., lines 179-184). -/
def lastFieldOf {α : Type} (rows : List ChangeEvent) (i : Nat) (f : ChangeEvent → α) : Option α :=
  rows.foldl (fun acc r => if r.issue_id = i then some (f r) else acc) none

/-- The `issue_ids` map, keyed by `issue_key`, last writer wins. -/
def issueIdOfKey (rows : List ChangeEvent) (k : String) : Option Nat :=
  rows.foldl (fun acc r => if r.issue_key = k then some r.issue_id else acc) none

/-- Day index `d` (days since the Monday epoch) falls on a Saturday or
Sunday. -/
def isWeekendDay (d : Int) : Bool :=
  d % 7 == 5 || d % 7 == 6

/-- `numpy.busday_count(a, b, weekmask='Sat Sun')`: the number of weekend days
in `[a, b)`, negated when `b < a`. -/
def busday_count_weekend (a b : Int) : Int :=
  if a ≤ b then
    ((List.range (b - a).toNat).filter (fun k => isWeekendDay (a + (k : Int)))).length
  else
    -(((List.range (a - b).toNat).filter (fun k => isWeekendDay (b + (k : Int)))).length : Int)

/-- The negative-duration clamp of lines 267-272. -/
def clampNonneg (q : ℚ) : ℚ :=
  if q < 0 then 0 else q

/-- The sub-hour rounding of lines 310-317: durations below `1/24` of a day
become zero. -/
def roundSubHour (q : ℚ) : ℚ :=
  if q < mkRat 1 24 then 0 else q

/-- Lead time before weekend adjustment (lines 245-251): zero unless the
issue completed. -/
def leadTimeRaw (st : IssueStatus) : ℚ :=
  match st.last_complete, st.first_created with
  | some c, some n => c - n
  | _, _ => 0

/-- Cycle time before weekend adjustment (lines 245-256): zero unless the
issue completed and was seen in progress. -/
def cycleTimeRaw (st : IssueStatus) : ℚ :=
  match st.last_complete, st.first_in_progress with
  | some c, some p => c - p
  | _, _ => 0

/-- Weekend-adjusted lead time (lines 259-261): when completing and
`exclude_weekends`, the count of weekend calendar days between the floored
endpoint dates is subtracted. -/
def leadTimeAdj (w : Bool) (st : IssueStatus) : ℚ :=
  match w, st.last_complete, st.first_created with
  | true, some c, some n => leadTimeRaw st - (busday_count_weekend n.floor c.floor : ℤ)
  | _, _, _ => leadTimeRaw st

/-- Weekend-adjusted cycle time (lines 263-265). -/
def cycleTimeAdj (w : Bool) (st : IssueStatus) : ℚ :=
  match w, st.last_complete, st.first_in_progress with
  | true, some c, some p => cycleTimeRaw st - (busday_count_weekend p.floor c.floor : ℤ)
  | _, _, _ => cycleTimeRaw st

/-- A row of the `issue_data` frame returned by `process_issue_data`, with
the day-truncated columns and the prev/last status columns. -/
structure IssueRecord where
  issue_key : Option String
  issue_type : Option String
  issue_points : Option ℚ
  new : Option ℚ
  new_day : Option Int
  in_progress : Option ℚ
  in_progress_day : Option Int
  complete : Option ℚ
  complete_day : Option Int
  lead_time : ℚ
  lead_time_days : ℚ
  cycle_time : ℚ
  cycle_time_days : ℚ
  prev_issue_status : Option String
  prev_issue_status_change_date : Option ℚ
  prev_issue_status_category : Option String
  last_issue_status : Option String
  last_issue_status_change_date : Option ℚ
  last_issue_status_category : Option String
deriving DecidableEq, Repr

/-- The status dictionary consulted for the prev/last columns of issue `i`
(lines 319-337): `issue_statuses[issue_ids[issue_keys[i]]]`; the defaultdict
yields an empty dict when the key round trip leaves the table, which is the
all-`none` status. -/
def statusLookup (rows : List ChangeEvent) (i : Nat) : IssueStatus :=
  match lastFieldOf rows i (fun r => r.issue_key) with
  | none => {}
  | some k =>
    match issueIdOfKey rows k with
    | none => {}
    | some j => statusesFor rows j

/-- The output row of `process_issue_data` for issue `i` (lines 240-337).
`rows` is the window-filtered table. -/
def mkRecord (rows : List ChangeEvent) (w : Bool) (i : Nat) : IssueRecord :=
  let st := statusesFor rows i
  let key := lastFieldOf rows i (fun r => r.issue_key)
  let stj : IssueStatus := statusLookup rows i
  { issue_key := key
    issue_type := lastFieldOf rows i (fun r => r.issue_type_name)
    issue_points := lastFieldOf rows i (fun r => r.issue_points)
    new := st.first_created
    new_day := st.first_created.map Rat.floor
    in_progress := st.first_in_progress
    in_progress_day := st.first_in_progress.map Rat.floor
    complete := st.last_complete
    complete_day := st.last_complete.map Rat.floor
    lead_time := clampNonneg (leadTimeAdj w st)
    lead_time_days := roundSubHour (clampNonneg (leadTimeAdj w st))
    cycle_time := clampNonneg (cycleTimeAdj w st)
    cycle_time_days := roundSubHour (clampNonneg (cycleTimeAdj w st))
    prev_issue_status := stj.prev_update.bind (fun u => u.status_to_name)
    prev_issue_status_change_date := stj.prev_update.map (fun u => u.status_change_date)
    prev_issue_status_category := stj.prev_update.bind (fun u => u.status_to_category_name)
    last_issue_status := stj.last_update.bind (fun u => u.status_to_name)
    last_issue_status_change_date := stj.last_update.map (fun u => u.status_change_date)
    last_issue_status_category := stj.last_update.bind (fun u => u.status_to_category_name) }

/-- The creation-date window filter applied at the top of
`process_issue_data` (lines 169-172); an absent bound means no filtering. -/
def filterWindow (rows : List ChangeEvent) (since untl : Option ℚ) : List ChangeEvent :=
  let r1 :=
    match since with
    | some s => rows.filter (fun r => s ≤ r.issue_created_date)
    | none => rows
  match untl with
  | some u => r1.filter (fun r => r.issue_created_date < u)
  | none => r1

/-- `process_issue_data(data, since, until, exclude_weekends)`: `none` models
the early `return` on empty input, otherwise one `IssueRecord` per key of
`issue_statuses`. -/
def process_issue_data (data : List ChangeEvent) (since untl : Option ℚ)
    (exclude_weekends : Bool) : Option (List IssueRecord) :=
  match data with
  | [] => none
  | _ :: _ =>
    let rows := filterWindow data since untl
    some ((processedIds rows).map (mkRecord rows exclude_weekends))

/-- The daily date axis `pandas.date_range(since, until, inclusive='left')`
as integer day indices. -/
def intRange (since untl : Int) : List Int :=
  (List.range (untl - since).toNat).map (fun (k : Nat) => since + (k : Int))

/-- The eligibility filters at the top of `process_wip_data` (lines 467-468):
a non-null `in_progress_day` and a last status category other than To Do. -/
def wipEligible (recs : List IssueRecord) : List IssueRecord :=
  (recs.filter (fun r => r.in_progress_day.isSome)).filter
    (fun r => r.last_issue_status_category ≠ some "To Do")

/-- The `sort_values(['in_progress'])` step (line 469); `none` sorts last as
pandas places NaT last (eligible rows always carry a value). -/
def inProgressLe (a b : IssueRecord) : Bool :=
  match a.in_progress, b.in_progress with
  | some x, some y => decide (x ≤ y)
  | some _, none => true
  | none, _ => false

/-- Insertion sort on the `in_progress` key. -/
def sortByInProgress (recs : List IssueRecord) : List IssueRecord :=
  recs.insertionSort (fun a b => inProgressLe a b = true)

/-- The per-date count of lines 475-482: started on or before `d` and not
completed by the end of `d`. -/
def wipAtDate (wd : List IssueRecord) (d : Int) : Nat :=
  ((wd.filter (fun r =>
      match r.in_progress_day with
      | some p => p ≤ d
      | none => false)).filter (fun r =>
      match r.complete_day with
      | none => true
      | some c => d < c)).length

/-- `process_wip_data(issue_data, since, until)` (daily series only): `none`
models the early `return` on empty input. -/
def process_wip_data (recs : List IssueRecord) (since untl : Int) :
    Option (List (Int × Nat)) :=
  match recs with
  | [] => none
  | _ :: _ =>
    let wd := sortByInProgress (wipEligible recs)
    some ((intRange since untl).map (fun d => (d, wipAtDate wd d)))

/-- The predicate of the WIP claim, written from the specification's words:
`first_in_progress <= d`, not completed by `d`, and a last known status
category other than To Do.  Kept separate from the source-derived
`wipAtDate` so the two can be compared. -/
def wipSpecPred (d : Int) (r : IssueRecord) : Bool :=
  (match r.in_progress_day with
   | some p => p ≤ d
   | none => false) &&
  (match r.complete_day with
   | none => true
   | some c => d < c) &&
  r.last_issue_status_category ≠ some "To Do"

/-- Running counters of the cumulative-flow replay: the `collections.Counter`
keyed by status (or category) name, where a pandas NaN key is `none`.
`Counter` is integer-valued, so the value type is `ℤ` and the floor-at-zero
rule is a real guard, not a typing accident. -/
def Cnt : Type := Option String → Int

/-- `counter[item] += 1` for a `to` status (lines 664-665 / 720-721). -/
def incStep (c : Cnt) (s : Option String) : Cnt :=
  Function.update c s (c s + 1)

/-- `if counter[item] > 0: counter[item] -= 1` for a `from` status
(lines 661-663 / 717-719): the decrement is only performed on a positive
bucket. -/
def decStep (c : Cnt) (s : Option String) : Cnt :=
  if 0 < c s then Function.update c s (c s - 1) else c

/-- One day of the replay: all `from` decrements of the day's events, then
all `to` increments (the source iterates the two columns separately). -/
def processDay (c : Cnt) (froms tos : List (Option String)) : Cnt :=
  tos.foldl incStep (froms.foldl decStep c)

/-- The events of the sorted table whose `status_change_date` falls on day
`d`, i.e. in `[d, d+1)` (lines 652-655). -/
def eventsOn (evs : List ChangeEvent) (d : Int) : List ChangeEvent :=
  evs.filter (fun e => (d : ℚ) ≤ e.status_change_date && e.status_change_date < (d : ℚ) + 1)

/-- The counter after replaying day `d` of the axis on top of counter `c`.
`proj` extracts the (`from`, `to`) pair: status names for
`process_flow_data`, category names for `process_flow_category_data`. -/
def dayCnt (proj : ChangeEvent → Option String × Option String)
    (sorted : List ChangeEvent) (c : Cnt) (d : Int) : Cnt :=
  let evs := eventsOn sorted d
  processDay c (evs.map (fun e => (proj e).1)) (evs.map (fun e => (proj e).2))

/-- The day-by-day replay over the date axis, threading the running counter
(the `last_counter` carried across loop iterations; a falsy empty `Counter`
is replaced by a fresh one, which has the same values, so the carry is
unconditional here). -/
def flowRows (proj : ChangeEvent → Option String × Option String)
    (sorted : List ChangeEvent) (c : Cnt) : List Int → List (Int × Cnt)
  | [] => []
  | d :: ds =>
    let c' := dayCnt proj sorted c d
    (d, c') :: flowRows proj sorted c' ds

/-- `sort_values(['status_change_date'])` (line 641 / 697). -/
def sortByChangeDate (evs : List ChangeEvent) : List ChangeEvent :=
  evs.insertionSort (fun a b => a.status_change_date ≤ b.status_change_date)

/-- The key pair used by `process_flow_data`: status names. -/
def statusProj (e : ChangeEvent) : Option String × Option String :=
  (e.status_from_name, e.status_to_name)

/-- The key pair used by `process_flow_category_data`: status-category
names. -/
def categoryProj (e : ChangeEvent) : Option String × Option String :=
  (e.status_from_category_name, e.status_to_category_name)

/-- The zero counter. -/
def cnt0 : Cnt := fun _ => 0

/-- `process_flow_data(data, since, until)` (lines 686-739): the early empty
return is `.ok none`, the missing-range `AnalysisException` is `.error`, and
otherwise one `(day, counter)` row per axis day. -/
def process_flow_data (data : List ChangeEvent) (since untl : Option Int) :
    Except String (Option (List (Int × Cnt))) :=
  match data with
  | [] => .ok none
  | _ :: _ =>
    match since, untl with
    | some s, some u =>
      .ok (some (flowRows statusProj (sortByChangeDate data) cnt0 (intRange s u)))
    | _, _ => .error "Flow analysis requires both since and until dates for processing"

/-- `process_flow_category_data(data, since, until)` (lines 630-683): same
replay keyed by status-category names. -/
def process_flow_category_data (data : List ChangeEvent) (since untl : Option Int) :
    Except String (Option (List (Int × Cnt))) :=
  match data with
  | [] => .ok none
  | _ :: _ =>
    match since, untl with
    | some s, some u =>
      .ok (some (flowRows categoryProj (sortByChangeDate data) cnt0 (intRange s u)))
    | _, _ => .error "Flow analysis requires both since and until dates for processing"

/-- The number of `from` decrements actually performed (bucket positive) when
folding `decStep` over a day's `from` column from counter `c`. -/
def decsPerformed : Cnt → List (Option String) → Nat
  | _, [] => 0
  | c, s :: rest => (if 0 < c s then 1 else 0) + decsPerformed (decStep c s) rest

/-- The counter after replaying a list of days on top of `c`. -/
def runDays (proj : ChangeEvent → Option String × Option String)
    (sorted : List ChangeEvent) : Cnt → List Int → Cnt
  | c, [] => c
  | c, d :: ds => runDays proj sorted (dayCnt proj sorted c d) ds

/-- Total `from` decrements performed while replaying a list of days. -/
def runDecs (proj : ChangeEvent → Option String × Option String)
    (sorted : List ChangeEvent) : Cnt → List Int → Nat
  | _, [] => 0
  | c, d :: ds =>
    decsPerformed c ((eventsOn sorted d).map (fun e => (proj e).1))
      + runDecs proj sorted (dayCnt proj sorted c d) ds

/-- Total `to` increments while replaying a list of days (every event of a
processed day increments exactly one bucket). -/
def runIncs (sorted : List ChangeEvent) : List Int → Nat
  | [] => 0
  | d :: ds => (eventsOn sorted d).length + runIncs sorted ds

/-- A raw row as read by `read_data`, before the `issue_points` default is
applied: structurally carries the required fields (whose presence check has
passed) and an optional per-row `issue_points` value. -/
structure RawRow where
  issue_id : Nat
  issue_key : String
  issue_type_name : String
  issue_created_date : ℚ
  changelog_id : Option Nat
  status_change_date : ℚ
  status_from_name : Option String
  status_to_name : Option String
  status_from_category_name : Option String
  status_to_category_name : Option String
  issue_points : Option ℚ
deriving DecidableEq, Repr

/-- The raw CSV table: whether the optional `issue_points` column is present
at all is a property of the table, distinct from per-row nulls in a present
column. -/
structure RawTable where
  hasPointsCol : Bool
  rows : List RawRow
deriving DecidableEq, Repr

/-- `sort_values(['issue_id', 'status_change_date'])` (line 86). -/
def sortRawRows (rows : List RawRow) : List RawRow :=
  rows.insertionSort (fun a b =>
    a.issue_id < b.issue_id ∨ (a.issue_id = b.issue_id ∧ a.status_change_date ≤ b.status_change_date))

/-- `drop_duplicates(subset=['issue_id', 'changelog_id'], keep='first')`
(line 91). -/
def dropDuplicates (rows : List RawRow) : List RawRow :=
  rows.foldl (fun acc r =>
    if acc.any (fun x => x.issue_id == r.issue_id && x.changelog_id == r.changelog_id)
    then acc else acc ++ [r]) []

/-- `read_data` after CSV parsing (lines 86-118): sort, de-duplicate, filter
by type and creation-date window, then create the `issue_points` column with
value 1 only when the column is absent. -/
def read_data (t : RawTable) (exclude_types : List String) (since untl : Option ℚ) :
    RawTable :=
  let d1 := sortRawRows t.rows
  let d2 := dropDuplicates d1
  let d3 :=
    if exclude_types.isEmpty then d2
    else d2.filter (fun r => !(exclude_types.contains r.issue_type_name))
  let d4 :=
    match since with
    | some s => d3.filter (fun r => s ≤ r.issue_created_date)
    | none => d3
  let d5 :=
    match untl with
    | some u => d4.filter (fun r => r.issue_created_date < u)
    | none => d4
  if t.hasPointsCol then { hasPointsCol := true, rows := d5 }
  else { hasPointsCol := true, rows := d5.map (fun r => { r with issue_points := some 1 }) }

/-- Comparator for `sort_values(['complete_day'])`, `none` last. -/
def completeDayLe (a b : IssueRecord) : Bool :=
  match a.complete_day, b.complete_day with
  | some x, some y => decide (x ≤ y)
  | some _, none => true
  | none, _ => false

/-- The completion-window filter of `analyze_survival_km` (lines 1002-1003):
a NaT `complete_day` compares false and is dropped. -/
def kmWindow (recs : List IssueRecord) (since untl : Int) : List IssueRecord :=
  (recs.filter (fun r =>
      match r.complete_day with
      | some c => since ≤ c
      | none => false)).filter (fun r =>
      match r.complete_day with
      | some c => c < untl
      | none => false)

/-- `analyze_survival_km` (lines 999-1011), modelled up to the hand-off to
the external `lifelines` fitter: the pair of the `durations` column and the
`event_observed` list `[1 if c else 0 for c in cycle_time_days]` (Python
truthiness: exactly the zero duration is falsy). -/
def analyze_survival_km (recs : List IssueRecord) (since untl : Int) :
    List ℚ × List Nat :=
  let sorted := (kmWindow recs since untl).insertionSort (fun a b => completeDayLe a b = true)
  (sorted.map (fun r => r.cycle_time_days),
   sorted.map (fun r => if r.cycle_time_days = 0 then 0 else 1))

/-- `dataset = throughput_data[['Throughput']].tail(LAST_DAYS)` (line 1079):
the trailing `window` observations. -/
def forecastDataset (throughput : List Int) (window : Nat) : List Int :=
  throughput.drop (throughput.length - window)

/-- One trial of `simulate_days` inside `forecast_montecarlo_how_long_items`
(lines 1071-1077).  `draw n` is the throughput value produced by the n-th
`data.sample(n=1)` call, so quantifying over `draw` quantifies over every
random seed; `fuel` bounds the `while` loop (which the source does not
bound), and `none` means the bound was hit. -/
def simulate_days (draw : Nat → Int) (scope : Int) :
    Nat → Int → Nat → Option Nat
  | 0, _, _ => none
  | fuel + 1, total, days =>
    if total ≤ scope then simulate_days draw scope fuel (total + draw days) (days + 1)
    else some days

/-- The invariants claimed for the cumulative-flow replay output `rows`
produced for the axis `[s, u)`: (1) the i-th row is day `s + i`; (2) no
bucket is ever negative; (3) each day's counter is obtained from the
previous day's counter by replaying that day's events (carried forward, not
recomputed); (4) the sum of all buckets equals the cumulative `to`
increments minus the `from` decrements actually performed up to and
including that day. -/
def FlowInvariants (proj : ChangeEvent → Option String × Option String)
    (data : List ChangeEvent) (s u : Int) (rows : List (Int × Cnt)) : Prop :=
  (∀ i (hi : i < rows.length), (rows.get ⟨i, hi⟩).1 = s + i) ∧
  (∀ i (hi : i < rows.length) (k : Option String), 0 ≤ (rows.get ⟨i, hi⟩).2 k) ∧
  (∀ i (hi : i + 1 < rows.length) (hi0 : i < rows.length),
    (rows.get ⟨i + 1, hi⟩).2
      = dayCnt proj (sortByChangeDate data) (rows.get ⟨i, hi0⟩).2 (s + (i : Int) + 1)) ∧
  (∀ i (hi : i < rows.length) (K : Finset (Option String)),
    (∀ e ∈ data, (proj e).1 ∈ K ∧ (proj e).2 ∈ K) →
    (Finset.sum K (rows.get ⟨i, hi⟩).2)
      = (runIncs (sortByChangeDate data) ((intRange s u).take (i + 1)) : Int)
        - (runDecs proj (sortByChangeDate data) cnt0 ((intRange s u).take (i + 1)) : Int))

/-! Concrete fixtures used by counterexamples and witnesses. -/

/-- Scenario issue of the spec (§8): created Monday 2024-01-01 (day 0),
moved to the In Progress category on 2024-01-02 (day 1). -/
def ev9a : ChangeEvent :=
  { issue_id := 1
    issue_key := "X-1"
    issue_type_name := "Story"
    issue_created_date := 0
    issue_points := 1
    changelog_id := some 11
    status_change_date := 1
    status_from_name := some "To Do"
    status_to_name := some "Doing"
    status_from_category_name := some "To Do"
    status_to_category_name := some "In Progress" }

/-- Scenario completion event: done on 2024-01-10 (day 9, same time of
day). -/
def ev9b : ChangeEvent :=
  { issue_id := 1
    issue_key := "X-1"
    issue_type_name := "Story"
    issue_created_date := 0
    issue_points := 1
    changelog_id := some 12
    status_change_date := 9
    status_from_name := some "Doing"
    status_to_name := some "Closed"
    status_from_category_name := some "In Progress"
    status_to_category_name := some "Done" }

/-- The two-event changelog of the spec scenario. -/
def scenarioRows : List ChangeEvent := [ev9a, ev9b]

/-- An issue created on day 0 and never transitioned: the synthetic row the
extractor emits with a null `changelog_id` and null status fields. -/
def ev5 : ChangeEvent :=
  { issue_id := 7
    issue_key := "X-7"
    issue_type_name := "Story"
    issue_created_date := 0
    issue_points := 1
    changelog_id := none
    status_change_date := 0
    status_from_name := none
    status_to_name := none
    status_from_category_name := none
    status_to_category_name := none }

/-- A raw row whose `issue_points` cell is empty although the column
exists. -/
def raw6 : RawRow :=
  { issue_id := 3
    issue_key := "X-3"
    issue_type_name := "Bug"
    issue_created_date := 0
    changelog_id := some 31
    status_change_date := 1
    status_from_name := some "To Do"
    status_to_name := some "Doing"
    status_from_category_name := some "To Do"
    status_to_category_name := some "In Progress"
    issue_points := none }

/-- A table that has the `issue_points` column, with one null cell. -/
def tbl6 : RawTable := { hasPointsCol := true, rows := [raw6] }

/-- The same table without the `issue_points` column at all. -/
def tbl6absent : RawTable := { hasPointsCol := false, rows := [raw6] }

/-- A completed issue record with a cycle time of exactly zero, completing
on day 1. -/
def rec7 : IssueRecord :=
  { issue_key := some "X-1"
    issue_type := some "Story"
    issue_points := some 1
    new := some 0
    new_day := some 0
    in_progress := some 0
    in_progress_day := some 0
    complete := some 1
    complete_day := some 1
    lead_time := 1
    lead_time_days := 1
    cycle_time := 0
    cycle_time_days := 0
    prev_issue_status := some "Doing"
    prev_issue_status_change_date := some 0
    prev_issue_status_category := some "In Progress"
    last_issue_status := some "Closed"
    last_issue_status_change_date := some 1
    last_issue_status_category := some "Done" }

/-! Helper lemmas. -/

theorem roundSubHour_clampNonneg_nonneg (q : ℚ) : 0 ≤ roundSubHour (clampNonneg q) := by
  unfold roundSubHour clampNonneg
  split_ifs <;> linarith

theorem lastFieldOf_isSome_aux {α : Type} (i : Nat) (f : ChangeEvent → α) :
    ∀ (rs : List ChangeEvent) (acc : Option α), (∃ r ∈ rs, r.issue_id = i) →
      (rs.foldl (fun acc r => if r.issue_id = i then some (f r) else acc) acc).isSome = true := by
  intro rs
  induction rs with
  | nil => intro acc h; simp at h
  | cons r rest ih =>
    intro acc h
    by_cases hr : r.issue_id = i
    · rcases Decidable.em (∃ x ∈ rest, x.issue_id = i) with h2 | h2
      · simpa [List.foldl_cons, hr] using ih _ h2
      · have hpres : ∀ (l : List ChangeEvent) (a : α),
            (l.foldl (fun acc r => if r.issue_id = i then some (f r) else acc) (some a)).isSome
              = true := by
          intro l
          induction l with
          | nil => intro a; rfl
          | cons x xs ihx =>
            intro a
            by_cases hx : x.issue_id = i
            · simpa [List.foldl_cons, hx] using ihx (f x)
            · simpa [List.foldl_cons, hx] using ihx a
        simpa [List.foldl_cons, hr] using hpres rest (f r)
    · rcases h with ⟨x, hx, hxi⟩
      rcases List.mem_cons.mp hx with rfl | hx2
      · exact absurd hxi hr
      · simpa [List.foldl_cons, hr] using ih acc ⟨x, hx2, hxi⟩

theorem rowsFor_ne_nil_exists (rows : List ChangeEvent) (i : Nat)
    (h : rowsFor rows i ≠ []) : ∃ r ∈ rows, r.issue_id = i := by
  rcases hm : rowsFor rows i with _ | ⟨r, rest⟩
  · exact absurd hm h
  · have hr : r ∈ rowsFor rows i := by rw [hm]; exact List.mem_cons_self r rest
    rw [rowsFor, List.mem_filter] at hr
    exact ⟨r, hr.1, by simpa using hr.2⟩

theorem lastFieldOf_isSome {α : Type} (rows : List ChangeEvent) (i : Nat)
    (f : ChangeEvent → α) (h : rowsFor rows i ≠ []) :
    (lastFieldOf rows i f).isSome = true :=
  lastFieldOf_isSome_aux i f rows none (rowsFor_ne_nil_exists rows i h)

/-! Claim C8: the flow engines and the missing-range error. -/

/-- C8 counterexample: with an empty input table both flow engines take the
early empty-data return and produce `.ok none` even though neither `since`
nor `until` was supplied, so no `AnalysisException` is raised; the claim's
"for every input" is refuted at the empty table. -/
theorem flow_empty_returns_early :
    process_flow_data [] none none = Except.ok none ∧
    process_flow_category_data [] none none = Except.ok none :=
  ⟨rfl, rfl⟩

/-- C8 (amended): for every non-empty input, invoking either cumulative-flow
computation without both `since` and `until` yields the flow range error and
no flow output. -/
theorem flow_missing_range_errors (data : List ChangeEvent) (hne : data ≠ [])
    (s u : Option Int) (hmiss : s = none ∨ u = none) :
    process_flow_data data s u
        = Except.error "Flow analysis requires both since and until dates for processing" ∧
    process_flow_category_data data s u
        = Except.error "Flow analysis requires both since and until dates for processing" := by
  rcases data with _ | ⟨d, ds⟩
  · exact absurd rfl hne
  · rcases hmiss with h | h
    · subst h; exact ⟨rfl, rfl⟩
    · subst h; cases s <;> exact ⟨rfl, rfl⟩

/-- C8 witness: a one-row table with `since` missing hits the error in both
engines. -/
theorem flow_missing_range_errors_witness :
    process_flow_data [ev5] none (some 1)
        = Except.error "Flow analysis requires both since and until dates for processing" ∧
    process_flow_category_data [ev5] none (some 1)
        = Except.error "Flow analysis requires both since and until dates for processing" :=
  flow_missing_range_errors [ev5] (List.cons_ne_nil _ _) none (some 1) (Or.inl rfl)

/-! Claim C6: the issue_points default in read_data. -/

/-- C6 counterexample: when the `issue_points` column exists but a row's cell
is null, `read_data` leaves it null (the fill only triggers when the whole
column is absent), so not every returned row has a non-null
`issue_points`. -/
theorem read_data_keeps_null_points :
    ((read_data tbl6 [] none none).rows.map (fun r => r.issue_points)) = [none] := rfl

/-- C6 (amended): only when the `issue_points` column is absent from the
input does `read_data` create it with value 1 for every row; rows of an
existing column keep their (possibly null) values. -/
theorem read_data_fills_points_when_column_absent (t : RawTable)
    (ex : List String) (s u : Option ℚ) (h : t.hasPointsCol = false) :
    ∀ r ∈ (read_data t ex s u).rows, r.issue_points = some 1 := by
  intro r hr
  unfold read_data at hr
  rw [h] at hr
  simp only [Bool.false_eq_true, if_false, List.mem_map] at hr
  obtain ⟨a, -, rfl⟩ := hr
  rfl

/-- C6 witness: on a table without the points column the single row comes
back with `issue_points = 1`. -/
theorem read_data_fills_points_when_column_absent_witness :
    ({ raw6 with issue_points := some 1 } : RawRow).issue_points = some 1 :=
  read_data_fills_points_when_column_absent tbl6absent [] none none rfl
    { raw6 with issue_points := some 1 } (List.mem_singleton_self _)

/-! Claim C7: Kaplan-Meier event flags. -/

/-- C7 counterexample: a completed item inside the window whose
`cycle_time_days` is zero is passed to the fitter with `event_observed = 0`
(censored), not 1 as claimed. -/
theorem km_zero_cycle_censored :
    (analyze_survival_km [rec7] 0 2).1 = [0] ∧
    (analyze_survival_km [rec7] 0 2).2 = [0] ∧
    (analyze_survival_km [rec7] 0 2).2 ≠ [1] :=
  ⟨rfl, rfl, by decide⟩

/-- C7 (amended): every completed item whose completion day falls in
`[since, until)` is passed to the fitter, and its `event_observed` flag is 1
exactly when its cycle time is non-zero (Python truthiness of the duration);
zero-cycle items are passed as censored. -/
theorem km_event_observed_iff_nonzero (recs : List IssueRecord) (s u : Int) :
    (analyze_survival_km recs s u).2
      = (analyze_survival_km recs s u).1.map (fun c => if c = 0 then 0 else 1) ∧
    ((kmWindow recs s u).map (fun r => r.cycle_time_days)).Perm
      (analyze_survival_km recs s u).1 := by
  constructor
  · show _ = ((_ : List IssueRecord).map _).map _
    rw [List.map_map]
    rfl
  · exact (((List.perm_insertionSort (fun a b => completeDayLe a b = true)
      (kmWindow recs s u)).map (fun r => r.cycle_time_days))).symm

/-! Claim C5: issues with zero recorded transitions. -/

theorem foldUpdate_no_transition : ∀ (l : List ChangeEvent) (st : IssueStatus),
    (∀ r ∈ l, r.status_to_category_name = none) →
    st.first_in_progress = none → st.last_complete = none →
    (l.foldl foldUpdate st).first_in_progress = none ∧
    (l.foldl foldUpdate st).last_complete = none := by
  intro l
  induction l with
  | nil => intro st _ h1 h2; exact ⟨h1, h2⟩
  | cons r rest ih =>
    intro st hall h1 h2
    have hr : r.status_to_category_name = none := hall r (List.mem_cons_self r rest)
    rw [List.foldl_cons]
    refine ih (foldUpdate st r) (fun x hx => hall x (List.mem_cons_of_mem r hx)) ?_ ?_
    · show (if r.status_to_category_name = some "In Progress" then _
        else st.first_in_progress) = none
      rw [hr, if_neg (by simp), h1]
    · show (if r.status_to_category_name = some "Complete" ∨
          r.status_to_category_name = some "Done" then _ else st.last_complete) = none
      rw [hr, if_neg (by simp), h2]

theorem foldUpdate_created_isSome_preserved : ∀ (l : List ChangeEvent) (st : IssueStatus),
    st.first_created.isSome = true → (l.foldl foldUpdate st).first_created.isSome = true := by
  intro l
  induction l with
  | nil => intro st h; exact h
  | cons r rest ih =>
    intro st _
    rw [List.foldl_cons]
    exact ih (foldUpdate st r) rfl

theorem foldUpdate_created_isSome (l : List ChangeEvent) (st : IssueStatus)
    (hl : l ≠ []) : (l.foldl foldUpdate st).first_created.isSome = true := by
  rcases l with _ | ⟨r, rest⟩
  · exact absurd rfl hl
  · rw [List.foldl_cons]
    exact foldUpdate_created_isSome_preserved rest (foldUpdate st r) rfl

theorem mem_issueIdsInOrder_aux (i : Nat) : ∀ (rows : List ChangeEvent) (acc : List Nat),
    ((∃ r ∈ rows, r.issue_id = i) ∨ i ∈ acc) →
    i ∈ rows.foldl
      (fun acc r => if r.issue_id ∈ acc then acc else acc ++ [r.issue_id]) acc := by
  intro rows
  induction rows with
  | nil =>
    intro acc h
    rcases h with ⟨r, hr, -⟩ | h
    · simp at hr
    · exact h
  | cons r rest ih =>
    intro acc h
    rw [List.foldl_cons]
    apply ih
    rcases h with ⟨x, hx, hxi⟩ | hacc
    · rcases List.mem_cons.mp hx with rfl | hx2
      · right
        by_cases hmem : x.issue_id ∈ acc
        · rw [if_pos hmem]
          exact hxi ▸ hmem
        · rw [if_neg hmem, ← hxi]
          exact List.mem_append_right _ (List.mem_singleton_self _)
      · exact Or.inl ⟨x, hx2, hxi⟩
    · right
      by_cases hmem : r.issue_id ∈ acc
      · rw [if_pos hmem]
        exact hacc
      · rw [if_neg hmem]
        exact List.mem_append_left _ hacc

theorem mem_processedIds (rows : List ChangeEvent) (i : Nat)
    (h : ∃ r ∈ rows, r.issue_id = i) : i ∈ processedIds rows :=
  mem_issueIdsInOrder_aux i rows [] (Or.inl h)

theorem lead_days_zero_of_no_complete (w : Bool) (st : IssueStatus)
    (hc : st.last_complete = none) :
    roundSubHour (clampNonneg (leadTimeAdj w st)) = 0 := by
  have h0 : leadTimeAdj w st = 0 := by
    cases w <;> simp [leadTimeAdj, leadTimeRaw, hc]
  rw [h0]
  decide

theorem cycle_days_zero_of_no_complete (w : Bool) (st : IssueStatus)
    (hc : st.last_complete = none) :
    roundSubHour (clampNonneg (cycleTimeAdj w st)) = 0 := by
  have h0 : cycleTimeAdj w st = 0 := by
    cases w <;> simp [cycleTimeAdj, cycleTimeRaw, hc]
  rw [h0]
  decide

/-- C5 counterexample: the synthetic created-never-transitioned row (null
`changelog_id`, which `read_csv` delivers as NaN, so the line-192 `is None`
guard does not skip it) is processed: the issue appears as a row with zero
lead and cycle time and null in-progress/complete milestones, but its `new`
milestone is the non-null creation date — refuting "milestone fields
null". -/
theorem zero_transition_issue_row_values :
    (process_issue_data [ev5] none none false).map
        (List.map (fun r => (r.new, r.in_progress, r.complete,
          r.lead_time_days, r.cycle_time_days)))
      = some [((some (0 : ℚ)), none, none, (0 : ℚ), (0 : ℚ))] ∧
    some (0 : ℚ) ≠ (none : Option ℚ) :=
  ⟨by decide, by decide⟩

/-- C5 (amended): an issue with at least one (window-filtered) row, all of
whose rows record no transition (null `status_to_category_name`, as the
extractor's synthetic created-only rows have), still appears among the rows
of `process_issue_data`: its record has null in-progress and complete
milestones and zero lead and cycle time, while its `new` milestone is the
non-null creation date rather than null. -/
theorem zero_transition_issue_emitted (data : List ChangeEvent) (s u : Option ℚ)
    (w : Bool) (out : List IssueRecord)
    (h : process_issue_data data s u w = some out) (i : Nat) (e : ChangeEvent)
    (he : e ∈ rowsFor (filterWindow data s u) i)
    (hnt : ∀ r ∈ rowsFor (filterWindow data s u) i, r.status_to_category_name = none) :
    ∃ rec ∈ out, rec.in_progress = none ∧ rec.complete = none ∧
      rec.lead_time_days = 0 ∧ rec.cycle_time_days = 0 ∧ rec.new.isSome = true := by
  rcases data with _ | ⟨d0, ds⟩
  · simp [process_issue_data] at h
  simp only [process_issue_data] at h
  rw [← Option.some_injective _ h]
  have hemem : e ∈ filterWindow (d0 :: ds) s u ∧ (e.issue_id == i) = true :=
    List.mem_filter.mp he
  have hmem : i ∈ processedIds (filterWindow (d0 :: ds) s u) :=
    mem_processedIds _ i ⟨e, hemem.1, by simpa using hemem.2⟩
  refine ⟨mkRecord (filterWindow (d0 :: ds) s u) w i, List.mem_map_of_mem _ hmem,
    ?_, ?_, ?_, ?_, ?_⟩
  · show ((rowsFor (filterWindow (d0 :: ds) s u) i).foldl foldUpdate {}).first_in_progress
      = none
    exact (foldUpdate_no_transition _ {} hnt rfl rfl).1
  · show ((rowsFor (filterWindow (d0 :: ds) s u) i).foldl foldUpdate {}).last_complete
      = none
    exact (foldUpdate_no_transition _ {} hnt rfl rfl).2
  · exact lead_days_zero_of_no_complete w _ (foldUpdate_no_transition _ {} hnt rfl rfl).2
  · exact cycle_days_zero_of_no_complete w _ (foldUpdate_no_transition _ {} hnt rfl rfl).2
  · show ((rowsFor (filterWindow (d0 :: ds) s u) i).foldl foldUpdate {}).first_created.isSome
      = true
    refine foldUpdate_created_isSome _ {} ?_
    intro hnil
    rw [hnil] at he
    simp at he

/-- C5 witness: the concrete never-transitioned issue is emitted with zero
times, null transition milestones, and a non-null creation milestone. -/
theorem zero_transition_issue_emitted_witness :
    ∃ rec ∈ (processedIds (filterWindow [ev5] none none)).map
        (mkRecord (filterWindow [ev5] none none) false),
      rec.in_progress = none ∧ rec.complete = none ∧
      rec.lead_time_days = 0 ∧ rec.cycle_time_days = 0 ∧ rec.new.isSome = true :=
  zero_transition_issue_emitted [ev5] none none false
    ((processedIds (filterWindow [ev5] none none)).map
      (mkRecord (filterWindow [ev5] none none) false))
    rfl 7 ev5 (by decide) (by decide)

/-! Claim C1 counterexample. -/

/-- C1 counterexample: with a constant throughput of k = 1 and target T = 1,
a trial returns 2 (the loop runs while `total <= scope`), whereas
ceil(T / k) = 1; the "exactly ceil(T / k)" claim fails whenever k divides
T. -/
theorem simulate_days_ceil_counterexample :
    simulate_days (fun _ => 1) 1 5 0 0 = some 2 ∧
    (Rat.ceil (mkRat 1 1)).toNat = 1 ∧
    simulate_days (fun _ => 1) 1 5 0 0 ≠ some ((Rat.ceil (mkRat 1 1)).toNat) := by
  refine ⟨by decide, by decide, by decide⟩

theorem simulate_days_const_aux (k T : Int) (hk : 0 < k) (hT : 0 < T)
    (draw : Nat → Int) (hdk : ∀ n, draw n = k) :
    ∀ (fuel d : Nat), d ≤ (T / k).toNat + 1 → (T / k).toNat + 2 - d ≤ fuel →
      simulate_days draw T fuel ((d : Int) * k) d = some ((T / k).toNat + 1) := by
  have hq : 0 ≤ T / k := Int.ediv_nonneg (le_of_lt hT) (le_of_lt hk)
  have htn : (((T / k).toNat : Int)) = T / k := Int.toNat_of_nonneg hq
  intro fuel
  induction fuel with
  | zero => intro d hd hf; omega
  | succ f ih =>
    intro d hd hf
    rw [simulate_days]
    by_cases hle : (d : Int) * k ≤ T
    · rw [if_pos hle, hdk]
      have hdq : (d : Int) ≤ T / k := (Int.le_ediv_iff_mul_le hk).mpr hle
      have hstep : (d : Int) * k + k = ((d + 1 : Nat) : Int) * k := by push_cast; ring
      rw [hstep]
      exact ih (d + 1) (by omega) (by omega)
    · rw [if_neg hle]
      have hgt : T / k < (d : Int) := by
        by_contra hcon
        exact hle ((Int.le_ediv_iff_mul_le hk).mp (le_of_not_lt hcon))
      have : d = (T / k).toNat + 1 := by omega
      rw [this]

/-- C1 (amended): with a trailing throughput window of constant daily value
k > 0 and target T > 0, every trial of the "days to reach target T"
simulation returns the least d with d * k > T, i.e. floor(T / k) + 1 —
which equals ceil(T / k) except when k divides T, where it is one more —
for every random seed (any sampling sequence from the window) and any
sufficient loop fuel. -/
theorem montecarlo_constant_throughput_days (tp : List Int) (window : Nat)
    (k T : Int) (draw : Nat → Int) (hk : 0 < k) (hT : 0 < T)
    (hconst : ∀ v ∈ forecastDataset tp window, v = k)
    (hdraw : ∀ n, draw n ∈ forecastDataset tp window)
    (fuel : Nat) (hfuel : (T / k).toNat + 2 ≤ fuel) :
    simulate_days draw T fuel 0 0 = some ((T / k).toNat + 1) := by
  have hdk : ∀ n, draw n = k := fun n => hconst (draw n) (hdraw n)
  have h0 : ((0 : Nat) : Int) * k = 0 := by simp
  have := simulate_days_const_aux k T hk hT draw hdk fuel 0 (by omega) (by omega)
  rwa [h0] at this

/-- C1 witness: constant throughput 2 over a 3-day window, target 5: every
trial returns floor(5 / 2) + 1 = 3. -/
theorem montecarlo_constant_throughput_days_witness :
    simulate_days (fun _ => 2) 5 10 0 0 = some (((5 : Int) / 2).toNat + 1) :=
  montecarlo_constant_throughput_days [2, 2, 2] 3 2 5 (fun _ => 2) (by decide)
    (by decide) (by decide)
    (fun n => show (2 : Int) ∈ forecastDataset [2, 2, 2] 3 by decide) 10 (by decide)

/-! Claim C2: the clamping invariant. -/

/-- C2: every row produced by `process_issue_data` — for any input data,
window, and either value of `exclude_weekends` (timestamps being arbitrary
rationals, covering out-of-order histories) — satisfies
`lead_time_days >= 0` and `cycle_time_days >= 0`: the weekend subtraction
is clamped at zero before the day conversion. -/
theorem lead_cycle_time_days_nonneg (data : List ChangeEvent) (s u : Option ℚ)
    (w : Bool) (out : List IssueRecord)
    (h : process_issue_data data s u w = some out) :
    ∀ rec ∈ out, 0 ≤ rec.lead_time_days ∧ 0 ≤ rec.cycle_time_days := by
  intro rec hrec
  rcases data with _ | ⟨d, ds⟩
  · simp [process_issue_data] at h
  · simp only [process_issue_data] at h
    rw [← Option.some_injective _ h] at hrec
    rw [List.mem_map] at hrec
    obtain ⟨i, -, rfl⟩ := hrec
    exact ⟨roundSubHour_clampNonneg_nonneg _, roundSubHour_clampNonneg_nonneg _⟩

/-- C2 witness: the invariant at a concrete one-event table with weekend
exclusion on. -/
theorem lead_cycle_time_days_nonneg_witness :
    0 ≤ (mkRecord [ev9a] true 1).lead_time_days ∧
    0 ≤ (mkRecord [ev9a] true 1).cycle_time_days :=
  lead_cycle_time_days_nonneg [ev9a] none none true
    ((processedIds (filterWindow [ev9a] none none)).map
      (mkRecord (filterWindow [ev9a] none none) true))
    rfl (mkRecord [ev9a] true 1) (List.mem_singleton_self _)

/-! Claim C9: the concrete lead/cycle-time scenario. -/

/-- C9: for the issue created 2024-01-01 (day 0, a Monday), first In
Progress 2024-01-02 (day 1) and completed 2024-01-10 (day 9), all at the
same time of day, `process_issue_data` yields `lead_time_days = 9` and
`cycle_time_days = 8` without weekend exclusion, and `cycle_time_days = 6`
with weekend exclusion (the interval spans the weekend days 5 and 6). -/
theorem scenario_lead_cycle_times :
    (process_issue_data scenarioRows none none false).map
        (fun l => l.map (fun r => (r.lead_time_days, r.cycle_time_days)))
      = some [((9 : ℚ), (8 : ℚ))] ∧
    (process_issue_data scenarioRows none none true).map
        (fun l => l.map (fun r => r.cycle_time_days)) = some [(6 : ℚ)] := by
  have hst : statusesFor scenarioRows 1 =
      { first_created := some 0
        first_in_progress := some 1
        last_complete := some 9
        prev_update := some ev9a
        last_update := some ev9b } := by decide
  have hbw1 : busday_count_weekend ((1 : ℚ).floor) ((9 : ℚ).floor) = 2 := by decide
  have hlead : (mkRecord scenarioRows false 1).lead_time_days = 9 := by
    show roundSubHour (clampNonneg (leadTimeAdj false (statusesFor scenarioRows 1))) = 9
    rw [hst]
    norm_num [leadTimeAdj, leadTimeRaw, clampNonneg, roundSubHour, Rat.mkRat_eq_div]
  have hcyc8 : (mkRecord scenarioRows false 1).cycle_time_days = 8 := by
    show roundSubHour (clampNonneg (cycleTimeAdj false (statusesFor scenarioRows 1))) = 8
    rw [hst]
    norm_num [cycleTimeAdj, cycleTimeRaw, clampNonneg, roundSubHour, Rat.mkRat_eq_div]
  have hcyc6 : (mkRecord scenarioRows true 1).cycle_time_days = 6 := by
    show roundSubHour (clampNonneg (cycleTimeAdj true (statusesFor scenarioRows 1))) = 6
    rw [hst]
    norm_num [cycleTimeAdj, cycleTimeRaw, clampNonneg, roundSubHour, hbw1,
      Rat.mkRat_eq_div]
  have hproc : ∀ w : Bool, process_issue_data scenarioRows none none w
      = some [mkRecord scenarioRows w 1] := fun w => rfl
  constructor
  · rw [hproc false]
    simp only [Option.map_some', List.map_cons, List.map_nil, hlead, hcyc8]
  · rw [hproc true]
    simp only [Option.map_some', List.map_cons, List.map_nil, hcyc6]

theorem lastFieldOf_some_exists {α : Type} (i : Nat) (f : ChangeEvent → α) (v : α) :
    ∀ (rs : List ChangeEvent) (acc : Option α),
      rs.foldl (fun acc r => if r.issue_id = i then some (f r) else acc) acc = some v →
      (∃ r ∈ rs, r.issue_id = i ∧ f r = v) ∨ acc = some v := by
  intro rs
  induction rs with
  | nil => intro acc h; exact Or.inr h
  | cons r rest ih =>
    intro acc h
    rw [List.foldl_cons] at h
    rcases ih _ h with h2 | h2
    · obtain ⟨x, hx, hxi, hxv⟩ := h2
      exact Or.inl ⟨x, List.mem_cons_of_mem r hx, hxi, hxv⟩
    · by_cases hr : r.issue_id = i
      · rw [if_pos hr] at h2
        exact Or.inl ⟨r, List.mem_cons_self r rest, hr, Option.some_injective _ h2⟩
      · rw [if_neg hr] at h2
        exact Or.inr h2

theorem issueIdOfKey_eq_of_unique (k : String) (i : Nat) :
    ∀ (rs : List ChangeEvent) (acc : Option Nat),
      ((∃ r ∈ rs, r.issue_key = k) ∨ acc = some i) →
      (∀ r ∈ rs, r.issue_key = k → r.issue_id = i) →
      rs.foldl (fun acc r => if r.issue_key = k then some r.issue_id else acc) acc = some i := by
  intro rs
  induction rs with
  | nil =>
    intro acc hd _
    rcases hd with ⟨r, hr, -⟩ | h2
    · simp at hr
    · exact h2
  | cons r rest ih =>
    intro acc hd hall
    rw [List.foldl_cons]
    by_cases hr : r.issue_key = k
    · refine ih _ (Or.inr ?_) (fun x hx hxk => hall x (List.mem_cons_of_mem r hx) hxk)
      rw [if_pos hr, hall r (List.mem_cons_self r rest) hr]
    · refine ih _ ?_ (fun x hx hxk => hall x (List.mem_cons_of_mem r hx) hxk)
      rw [if_neg hr]
      rcases hd with ⟨x, hx, hxk⟩ | h2
      · rcases List.mem_cons.mp hx with rfl | hx2
        · exact absurd hxk hr
        · exact Or.inl ⟨x, hx2, hxk⟩
      · exact Or.inr h2

/-! Claim C10: prev/last status columns for a single-event issue. -/

/-- C10: for an issue with exactly one recorded change event (and an issue
key that refers back to it), the emitted row has all three
`prev_issue_status*` columns null and the three `last_issue_status*` columns
equal to that event's status name, change timestamp and status category. -/
theorem single_event_prev_null_last_set (data : List ChangeEvent) (s u : Option ℚ)
    (w : Bool) (out : List IssueRecord)
    (h : process_issue_data data s u w = some out)
    (e : ChangeEvent) (i : Nat)
    (hone : rowsFor (filterWindow data s u) i = [e])
    (hkey : ∀ r ∈ filterWindow data s u, r.issue_key = e.issue_key → r.issue_id = i)
    (_hcl : e.changelog_id.isSome = true)
    (rec : IssueRecord) (hrec : rec ∈ out)
    (hk : rec.issue_key = some e.issue_key) :
    rec.prev_issue_status = none ∧
    rec.prev_issue_status_change_date = none ∧
    rec.prev_issue_status_category = none ∧
    rec.last_issue_status = e.status_to_name ∧
    rec.last_issue_status_change_date = some e.status_change_date ∧
    rec.last_issue_status_category = e.status_to_category_name := by
  rcases data with _ | ⟨d0, ds⟩
  · simp [process_issue_data] at h
  simp only [process_issue_data] at h
  rw [← Option.some_injective _ h] at hrec
  rw [List.mem_map] at hrec
  obtain ⟨j, hjmem, rfl⟩ := hrec
  have hkj : lastFieldOf (filterWindow (d0 :: ds) s u) j (fun r => r.issue_key)
      = some e.issue_key := hk
  have hex := lastFieldOf_some_exists j (fun r => r.issue_key) e.issue_key
    (filterWindow (d0 :: ds) s u) none hkj
  rcases hex with ⟨r, hrmem, hri, hrk⟩ | hbad
  swap
  · exact absurd hbad (by simp)
  have hij : j = i := by rw [← hri]; exact hkey r hrmem hrk
  subst hij
  have hemem : e ∈ rowsFor (filterWindow (d0 :: ds) s u) j := by
    rw [hone]; exact List.mem_singleton_self e
  rw [rowsFor, List.mem_filter] at hemem
  have heid : e.issue_id = j := by simpa using hemem.2
  have hid : issueIdOfKey (filterWindow (d0 :: ds) s u) e.issue_key = some j :=
    issueIdOfKey_eq_of_unique e.issue_key j (filterWindow (d0 :: ds) s u) none
      (Or.inl ⟨e, hemem.1, rfl⟩) (fun r hr hrk => hkey r hr hrk)
  have hstat : statusesFor (filterWindow (d0 :: ds) s u) j = foldUpdate {} e := by
    rw [statusesFor, hone, List.foldl_cons, List.foldl_nil]
  have hfold_prev : (foldUpdate {} e).prev_update = none := rfl
  have hfold_last : (foldUpdate {} e).last_update = some e := rfl
  have hstj : statusLookup (filterWindow (d0 :: ds) s u) j = foldUpdate {} e := by
    simp only [statusLookup.eq_def, hkj, hid, hstat]
  refine ⟨?_, ?_, ?_, ?_, ?_, ?_⟩
  · show (statusLookup (filterWindow (d0 :: ds) s u) j).prev_update.bind
      (fun u => u.status_to_name) = none
    rw [hstj, hfold_prev, Option.none_bind]
  · show ((statusLookup (filterWindow (d0 :: ds) s u) j).prev_update.map
      (fun u => u.status_change_date)) = none
    rw [hstj, hfold_prev, Option.map_none']
  · show (statusLookup (filterWindow (d0 :: ds) s u) j).prev_update.bind
      (fun u => u.status_to_category_name) = none
    rw [hstj, hfold_prev, Option.none_bind]
  · show (statusLookup (filterWindow (d0 :: ds) s u) j).last_update.bind
      (fun u => u.status_to_name) = e.status_to_name
    rw [hstj, hfold_last, Option.some_bind]
  · show ((statusLookup (filterWindow (d0 :: ds) s u) j).last_update.map
      (fun u => u.status_change_date)) = some e.status_change_date
    rw [hstj, hfold_last, Option.map_some']
  · show (statusLookup (filterWindow (d0 :: ds) s u) j).last_update.bind
      (fun u => u.status_to_category_name) = e.status_to_category_name
    rw [hstj, hfold_last, Option.some_bind]

/-- C10 witness: a one-event table; the emitted row has null prev columns
and the event's status, timestamp and category in the last columns. -/
theorem single_event_prev_null_last_set_witness :
    (mkRecord [ev9a] false 1).prev_issue_status = none ∧
    (mkRecord [ev9a] false 1).prev_issue_status_change_date = none ∧
    (mkRecord [ev9a] false 1).prev_issue_status_category = none ∧
    (mkRecord [ev9a] false 1).last_issue_status = ev9a.status_to_name ∧
    (mkRecord [ev9a] false 1).last_issue_status_change_date = some ev9a.status_change_date ∧
    (mkRecord [ev9a] false 1).last_issue_status_category = ev9a.status_to_category_name :=
  single_event_prev_null_last_set [ev9a] none none false
    ((processedIds (filterWindow [ev9a] none none)).map
      (mkRecord (filterWindow [ev9a] none none) false))
    rfl ev9a 1 rfl (by decide) rfl (mkRecord [ev9a] false 1)
    (List.mem_singleton_self _) rfl

theorem mem_intRange (s u d : Int) : d ∈ intRange s u ↔ s ≤ d ∧ d < u := by
  rw [intRange, List.mem_map]
  constructor
  · rintro ⟨k, hk, rfl⟩
    rw [List.mem_range] at hk
    omega
  · rintro ⟨h1, h2⟩
    exact ⟨(d - s).toNat, List.mem_range.mpr (by omega), by omega⟩

theorem wipAtDate_eq_countP (recs : List IssueRecord) (d : Int) :
    wipAtDate (sortByInProgress (wipEligible recs)) d = recs.countP (wipSpecPred d) := by
  rw [wipAtDate, List.filter_filter, ← List.countP_eq_length_filter, sortByInProgress]
  rw [(List.perm_insertionSort (fun a b => inProgressLe a b = true)
    (wipEligible recs)).countP_eq]
  rw [wipEligible, List.countP_filter, List.countP_filter]
  refine congrArg (fun f => recs.countP f) (funext (fun r => ?_))
  rcases hip : r.in_progress_day with - | p <;> rcases hcd : r.complete_day with - | c <;>
    simp [wipSpecPred, hip, hcd, Bool.and_comm, Bool.and_left_comm, Bool.and_assoc]

/-! Claim C3: the WIP count. -/

/-- C3: for every date `d` of the daily axis `[since, until)`, the Work In
Progress value produced by `process_wip_data` equals the number of issue
records whose first-in-progress day is `<= d`, whose complete day is null or
`> d`, and whose last known status category is not To Do. -/
theorem wip_matches_interval_count (recs : List IssueRecord) (s u : Int)
    (out : List (Int × Nat)) (h : process_wip_data recs s u = some out) :
    (∀ p ∈ out, p.2 = recs.countP (wipSpecPred p.1)) ∧
    (∀ d : Int, s ≤ d → d < u → (d, recs.countP (wipSpecPred d)) ∈ out) := by
  rcases recs with _ | ⟨r0, rs⟩
  · simp [process_wip_data] at h
  simp only [process_wip_data] at h
  rw [← Option.some_injective _ h]
  constructor
  · intro p hp
    rw [List.mem_map] at hp
    obtain ⟨d, hd, rfl⟩ := hp
    simpa using wipAtDate_eq_countP (r0 :: rs) d
  · intro d h1 h2
    rw [← wipAtDate_eq_countP (r0 :: rs) d]
    exact List.mem_map_of_mem _ ((mem_intRange s u d).mpr ⟨h1, h2⟩)

/-- C3 witness: one in-progress, later-completed record on a one-day axis is
counted. -/
theorem wip_matches_interval_count_witness :
    ((0 : Int), [rec7].countP (wipSpecPred 0))
      ∈ (intRange 0 1).map
          (fun d => (d, wipAtDate (sortByInProgress (wipEligible [rec7])) d)) :=
  (wip_matches_interval_count [rec7] 0 1
    ((intRange 0 1).map
      (fun d => (d, wipAtDate (sortByInProgress (wipEligible [rec7])) d)))
    rfl).2 0 (le_refl 0) (by decide)

theorem take_succ_get {α : Type} (l : List α) : ∀ (n : Nat) (h : n < l.length),
    l.take (n + 1) = l.take n ++ [l.get ⟨n, h⟩] := by
  induction l with
  | nil => intro n h; simp at h
  | cons a l ih =>
    intro n h
    cases n with
    | zero => rfl
    | succ m =>
      have hm : m < l.length := by simpa using h
      show a :: l.take (m + 1) = a :: (l.take m ++ [l.get ⟨m, hm⟩])
      rw [ih m hm]

theorem decStep_nonneg (c : Cnt) (s : Option String) (h : ∀ k, 0 ≤ c k)
    (k : Option String) : 0 ≤ decStep c s k := by
  rw [decStep]
  split_ifs with hs
  · rw [Function.update_apply]
    split_ifs with hk
    · have := hs; omega
    · exact h k
  · exact h k

theorem incStep_nonneg (c : Cnt) (s : Option String) (h : ∀ k, 0 ≤ c k)
    (k : Option String) : 0 ≤ incStep c s k := by
  rw [incStep, Function.update_apply]
  split_ifs with hk
  · have := h s; omega
  · exact h k

theorem foldlDec_nonneg : ∀ (l : List (Option String)) (c : Cnt),
    (∀ k, 0 ≤ c k) → ∀ k, 0 ≤ (l.foldl decStep c) k := by
  intro l
  induction l with
  | nil => intro c h k; exact h k
  | cons a rest ih =>
    intro c h k
    exact ih (decStep c a) (fun k2 => decStep_nonneg c a h k2) k

theorem foldlInc_nonneg : ∀ (l : List (Option String)) (c : Cnt),
    (∀ k, 0 ≤ c k) → ∀ k, 0 ≤ (l.foldl incStep c) k := by
  intro l
  induction l with
  | nil => intro c h k; exact h k
  | cons a rest ih =>
    intro c h k
    exact ih (incStep c a) (fun k2 => incStep_nonneg c a h k2) k

theorem processDay_nonneg (c : Cnt) (froms tos : List (Option String))
    (h : ∀ k, 0 ≤ c k) (k : Option String) : 0 ≤ processDay c froms tos k :=
  foldlInc_nonneg tos _ (foldlDec_nonneg froms c h) k

theorem dayCnt_nonneg (proj : ChangeEvent → Option String × Option String)
    (sorted : List ChangeEvent) (c : Cnt) (d : Int) (h : ∀ k, 0 ≤ c k)
    (k : Option String) : 0 ≤ dayCnt proj sorted c d k :=
  processDay_nonneg c _ _ h k

theorem runDays_nonneg (proj : ChangeEvent → Option String × Option String)
    (sorted : List ChangeEvent) : ∀ (ds : List Int) (c : Cnt),
    (∀ k, 0 ≤ c k) → ∀ k, 0 ≤ runDays proj sorted c ds k := by
  intro ds
  induction ds with
  | nil => intro c h k; exact h k
  | cons d rest ih =>
    intro c h k
    exact ih (dayCnt proj sorted c d) (dayCnt_nonneg proj sorted c d h) k

theorem sum_incStep (K : Finset (Option String)) (a : Option String) (ha : a ∈ K)
    (c : Cnt) : Finset.sum K (incStep c a) = Finset.sum K c + 1 := by
  rw [incStep, Finset.sum_update_of_mem ha, Finset.sum_eq_sum_diff_singleton_add ha c]
  ring

theorem sum_decStep (K : Finset (Option String)) (a : Option String) (ha : a ∈ K)
    (c : Cnt) : Finset.sum K (decStep c a)
      = Finset.sum K c - (if 0 < c a then (1 : Int) else 0) := by
  rw [decStep]
  split_ifs with h
  · rw [Finset.sum_update_of_mem ha, Finset.sum_eq_sum_diff_singleton_add ha c]
    ring
  · ring

theorem sum_foldlDec (K : Finset (Option String)) : ∀ (l : List (Option String)),
    (∀ a ∈ l, a ∈ K) → ∀ c : Cnt,
    Finset.sum K (l.foldl decStep c) = Finset.sum K c - (decsPerformed c l : Int) := by
  intro l
  induction l with
  | nil => intro _ c; simp [decsPerformed]
  | cons a rest ih =>
    intro hmem c
    rw [List.foldl_cons, decsPerformed]
    rw [ih (fun x hx => hmem x (List.mem_cons_of_mem a hx)) (decStep c a)]
    rw [sum_decStep K a (hmem a (List.mem_cons_self a rest)) c]
    by_cases h0 : 0 < c a
    · simp only [if_pos h0]
      push_cast
      ring
    · simp only [if_neg h0]
      push_cast
      ring

theorem sum_foldlInc (K : Finset (Option String)) : ∀ (l : List (Option String)),
    (∀ a ∈ l, a ∈ K) → ∀ c : Cnt,
    Finset.sum K (l.foldl incStep c) = Finset.sum K c + (l.length : Int) := by
  intro l
  induction l with
  | nil => intro _ c; simp
  | cons a rest ih =>
    intro hmem c
    rw [List.foldl_cons]
    rw [ih (fun x hx => hmem x (List.mem_cons_of_mem a hx)) (incStep c a)]
    rw [sum_incStep K a (hmem a (List.mem_cons_self a rest)) c]
    push_cast [List.length_cons]
    ring

theorem sum_processDay (K : Finset (Option String)) (froms tos : List (Option String))
    (hf : ∀ a ∈ froms, a ∈ K) (ht : ∀ a ∈ tos, a ∈ K) (c : Cnt) :
    Finset.sum K (processDay c froms tos)
      = Finset.sum K c + (tos.length : Int) - (decsPerformed c froms : Int) := by
  rw [processDay, sum_foldlInc K tos ht, sum_foldlDec K froms hf c]
  ring

theorem eventsOn_subset (evs : List ChangeEvent) (d : Int) :
    ∀ e ∈ eventsOn evs d, e ∈ evs :=
  fun _ he => (List.mem_filter.mp he).1

theorem sum_dayCnt (proj : ChangeEvent → Option String × Option String)
    (sorted : List ChangeEvent) (d : Int) (K : Finset (Option String))
    (hK : ∀ e ∈ sorted, (proj e).1 ∈ K ∧ (proj e).2 ∈ K) (c : Cnt) :
    Finset.sum K (dayCnt proj sorted c d)
      = Finset.sum K c + ((eventsOn sorted d).length : Int)
        - (decsPerformed c ((eventsOn sorted d).map (fun e => (proj e).1)) : Int) := by
  have hf : ∀ a ∈ (eventsOn sorted d).map (fun e => (proj e).1), a ∈ K := by
    intro a ha
    rw [List.mem_map] at ha
    obtain ⟨e, he, rfl⟩ := ha
    exact (hK e (eventsOn_subset sorted d e he)).1
  have ht : ∀ a ∈ (eventsOn sorted d).map (fun e => (proj e).2), a ∈ K := by
    intro a ha
    rw [List.mem_map] at ha
    obtain ⟨e, he, rfl⟩ := ha
    exact (hK e (eventsOn_subset sorted d e he)).2
  rw [dayCnt, sum_processDay K _ _ hf ht c, List.length_map]

theorem sum_runDays (proj : ChangeEvent → Option String × Option String)
    (sorted : List ChangeEvent) (K : Finset (Option String))
    (hK : ∀ e ∈ sorted, (proj e).1 ∈ K ∧ (proj e).2 ∈ K) :
    ∀ (ds : List Int) (c : Cnt),
    Finset.sum K (runDays proj sorted c ds)
      = Finset.sum K c + (runIncs sorted ds : Int) - (runDecs proj sorted c ds : Int) := by
  intro ds
  induction ds with
  | nil => intro c; simp [runDays, runIncs, runDecs]
  | cons d rest ih =>
    intro c
    rw [runDays, runIncs, runDecs, ih (dayCnt proj sorted c d),
      sum_dayCnt proj sorted d K hK c]
    push_cast
    ring

theorem runDays_append (proj : ChangeEvent → Option String × Option String)
    (sorted : List ChangeEvent) : ∀ (l1 l2 : List Int) (c : Cnt),
    runDays proj sorted c (l1 ++ l2) = runDays proj sorted (runDays proj sorted c l1) l2 := by
  intro l1
  induction l1 with
  | nil => intro l2 c; rfl
  | cons d rest ih =>
    intro l2 c
    rw [List.cons_append, runDays, runDays]
    exact ih l2 _

theorem flowRows_length (proj : ChangeEvent → Option String × Option String)
    (sorted : List ChangeEvent) : ∀ (ds : List Int) (c : Cnt),
    (flowRows proj sorted c ds).length = ds.length := by
  intro ds
  induction ds with
  | nil => intro c; rfl
  | cons d rest ih =>
    intro c
    rw [flowRows]
    simp only [List.length_cons, ih]

theorem flowRows_get (proj : ChangeEvent → Option String × Option String)
    (sorted : List ChangeEvent) : ∀ (ds : List Int) (c : Cnt) (i : Nat)
    (hi : i < (flowRows proj sorted c ds).length) (hi2 : i < ds.length),
    (flowRows proj sorted c ds).get ⟨i, hi⟩
      = (ds.get ⟨i, hi2⟩, runDays proj sorted c (ds.take (i + 1))) := by
  intro ds
  induction ds with
  | nil => intro c i hi hi2; simp at hi2
  | cons d rest ih =>
    intro c i hi hi2
    cases i with
    | zero => rfl
    | succ j =>
      have hj : j < (flowRows proj sorted (dayCnt proj sorted c d) rest).length := by
        rw [flowRows_length]
        simpa using hi2
      have hj2 : j < rest.length := by simpa using hi2
      have step : (flowRows proj sorted c (d :: rest)).get ⟨j + 1, hi⟩
          = (flowRows proj sorted (dayCnt proj sorted c d) rest).get ⟨j, hj⟩ := rfl
      rw [step, ih (dayCnt proj sorted c d) j hj hj2]
      rfl

theorem intRange_get (s u : Int) (i : Nat) (hi : i < (intRange s u).length) :
    (intRange s u).get ⟨i, hi⟩ = s + i := by
  simp [intRange]

theorem sorted_mem (data : List ChangeEvent) (e : ChangeEvent)
    (he : e ∈ sortByChangeDate data) : e ∈ data := by
  rw [sortByChangeDate] at he
  exact (List.perm_insertionSort
    (fun a b => a.status_change_date ≤ b.status_change_date) data).mem_iff.mp he

theorem flowRows_invariants (proj : ChangeEvent → Option String × Option String)
    (data : List ChangeEvent) (s u : Int) :
    FlowInvariants proj data s u
      (flowRows proj (sortByChangeDate data) cnt0 (intRange s u)) := by
  have hlen : (flowRows proj (sortByChangeDate data) cnt0 (intRange s u)).length
      = (intRange s u).length := flowRows_length proj (sortByChangeDate data) (intRange s u) cnt0
  refine ⟨?_, ?_, ?_, ?_⟩
  · intro i hi
    have hi2 : i < (intRange s u).length := hlen ▸ hi
    rw [flowRows_get proj (sortByChangeDate data) (intRange s u) cnt0 i hi hi2]
    exact intRange_get s u i hi2
  · intro i hi k
    have hi2 : i < (intRange s u).length := hlen ▸ hi
    rw [flowRows_get proj (sortByChangeDate data) (intRange s u) cnt0 i hi hi2]
    exact runDays_nonneg proj (sortByChangeDate data) _ cnt0 (fun _ => le_refl 0) k
  · intro i hi hi0
    have hi2 : i + 1 < (intRange s u).length := hlen ▸ hi
    have hi02 : i < (intRange s u).length := hlen ▸ hi0
    rw [flowRows_get proj (sortByChangeDate data) (intRange s u) cnt0 (i + 1) hi hi2,
      flowRows_get proj (sortByChangeDate data) (intRange s u) cnt0 i hi0 hi02]
    show runDays proj (sortByChangeDate data) cnt0 ((intRange s u).take (i + 1 + 1)) = _
    rw [take_succ_get (intRange s u) (i + 1) hi2, runDays_append, intRange_get s u (i + 1) hi2]
    have hcast : s + ((i + 1 : Nat) : Int) = s + (i : Int) + 1 := by push_cast; ring
    rw [show runDays proj (sortByChangeDate data)
        (runDays proj (sortByChangeDate data) cnt0 ((intRange s u).take (i + 1)))
        [s + ((i + 1 : Nat) : Int)]
      = dayCnt proj (sortByChangeDate data)
        (runDays proj (sortByChangeDate data) cnt0 ((intRange s u).take (i + 1)))
        (s + ((i + 1 : Nat) : Int)) from rfl, hcast]
  · intro i hi K hK
    have hi2 : i < (intRange s u).length := hlen ▸ hi
    rw [flowRows_get proj (sortByChangeDate data) (intRange s u) cnt0 i hi hi2]
    have hKs : ∀ e ∈ sortByChangeDate data, (proj e).1 ∈ K ∧ (proj e).2 ∈ K :=
      fun e he => hK e (sorted_mem data e he)
    show Finset.sum K (runDays proj (sortByChangeDate data) cnt0 ((intRange s u).take (i + 1)))
      = _
    rw [sum_runDays proj (sortByChangeDate data) K hKs]
    have h0 : Finset.sum K cnt0 = 0 := Finset.sum_const_zero
    rw [h0]
    ring

/-! Claim C4: cumulative-flow replay invariants. -/

/-- C4: in the cumulative-flow replay of both `process_flow_data` and
`process_flow_category_data`, for every day of the axis no status bucket is
ever negative, the counter is carried forward from the previous day rather
than recomputed, and the sum of all buckets on any day equals the cumulative
net of `to` increments minus performed `from` decrements up to and including
that day (see `FlowInvariants`). -/
theorem flow_replay_invariants (data : List ChangeEvent) (s u : Int)
    (rows rowsC : List (Int × Cnt))
    (h1 : process_flow_data data (some s) (some u) = Except.ok (some rows))
    (h2 : process_flow_category_data data (some s) (some u) = Except.ok (some rowsC)) :
    FlowInvariants statusProj data s u rows ∧
    FlowInvariants categoryProj data s u rowsC := by
  rcases data with _ | ⟨e0, es⟩
  · simp [process_flow_data] at h1
  simp only [process_flow_data, process_flow_category_data, Except.ok.injEq,
    Option.some.injEq] at h1 h2
  rw [← h1, ← h2]
  exact ⟨flowRows_invariants statusProj (e0 :: es) s u,
    flowRows_invariants categoryProj (e0 :: es) s u⟩

/-- C4 witness: the invariants at a concrete one-event table over a two-day
axis. -/
theorem flow_replay_invariants_witness :
    FlowInvariants statusProj [ev9a] 0 2
      (flowRows statusProj (sortByChangeDate [ev9a]) cnt0 (intRange 0 2)) ∧
    FlowInvariants categoryProj [ev9a] 0 2
      (flowRows categoryProj (sortByChangeDate [ev9a]) cnt0 (intRange 0 2)) :=
  flow_replay_invariants [ev9a] 0 2
    (flowRows statusProj (sortByChangeDate [ev9a]) cnt0 (intRange 0 2))
    (flowRows categoryProj (sortByChangeDate [ev9a]) cnt0 (intRange 0 2)) rfl rfl

end JiraFlow
